import Mathlib

/-!
Verification of the Redis-backed TTL cache adapter
(`internal/repository/redis/redis.go`, package `redis_cache`).

The Go file is a facade over the go-redis v9 client: `Set` serializes the
byte-slice value with `encoding/json` (which base64-encodes a `[]byte` and
wraps it in a JSON string) and issues one SET-with-expiration; `Get`, `Pop`,
`Remove`, `RemoveByPrefix` and `GetTTL` are single pass-through calls whose
errors are logged and collapsed into a boolean.

The development embeds, in order:
* the base64 standard encoding used by `encoding/json` for `[]byte` values,
* the JSON marshal/unmarshal pair restricted to byte slices,
* the Redis glob matcher (`stringmatchlen` from redis `util.c`) that the
  server applies to `KEYS pattern`,
* a Redis store state with the commands the facade uses
  (SET/GET/GETDEL/DEL/KEYS/TTL) and a go-redis-style client layer with an
  injectable transport fault and a cancellation context,
* the six facade operations, line by line from `redis.go`.
-/

namespace RedisCache

/-! ### Base64 (the `encoding/base64` standard alphabet with padding)

`encoding/json` marshals a Go `[]byte` as a JSON string holding the standard
base64 encoding of the bytes, and unmarshals by base64-decoding the string.
Bytes are modelled as `Nat` values below 256. -/

/-- The standard base64 alphabet. -/
def b64Alphabet : List Char :=
  "ABCDEFGHIJKLMNOPQRSTUVWXYZabcdefghijklmnopqrstuvwxyz0123456789+/".data

/-- The base64 character for a sextet `n < 64`. -/
def b64EncChar (n : Nat) : Char := b64Alphabet.getD n '='

/-- The sextet a base64 character stands for; `none` for a character outside
the alphabet (including the padding character). -/
def b64DecChar (c : Char) : Option Nat := b64Alphabet.findIdx? (fun a => a == c)

/-- Standard base64 encoding of a byte list: groups of three bytes become four
alphabet characters, a trailing group of one or two bytes is padded with
one or two `=` characters. -/
def base64Encode : List Nat → List Char
  | [] => []
  | [b1] => [b64EncChar (b1 / 4), b64EncChar (b1 % 4 * 16), '=', '=']
  | [b1, b2] => [b64EncChar (b1 / 4), b64EncChar (b1 % 4 * 16 + b2 / 16),
      b64EncChar (b2 % 16 * 4), '=']
  | b1 :: b2 :: b3 :: rest =>
      b64EncChar (b1 / 4) :: b64EncChar (b1 % 4 * 16 + b2 / 16) ::
      b64EncChar (b2 % 16 * 4 + b3 / 64) :: b64EncChar (b3 % 64) ::
      base64Encode rest

/-- Standard base64 decoding: the input must be a sequence of four-character
groups, padding may appear only as the last one or two characters of the final
group, and every non-padding character must be in the alphabet; otherwise the
decode fails (as Go's `base64.StdEncoding` rejects such input). -/
def base64Decode : List Char → Option (List Nat)
  | [] => some []
  | c1 :: c2 :: c3 :: c4 :: rest =>
      match b64DecChar c1, b64DecChar c2 with
      | some s1, some s2 =>
          if c3 = '=' then
            if c4 = '=' ∧ rest = [] then some [s1 * 4 + s2 / 16] else none
          else
            match b64DecChar c3 with
            | some s3 =>
                if c4 = '=' then
                  if rest = [] then some [s1 * 4 + s2 / 16, s2 % 16 * 16 + s3 / 4]
                  else none
                else
                  match b64DecChar c4, base64Decode rest with
                  | some s4, some tail =>
                      some ((s1 * 4 + s2 / 16) :: (s2 % 16 * 16 + s3 / 4) ::
                        (s3 % 4 * 64 + s4) :: tail)
                  | _, _ => none
            | none => none
      | _, _ => none
  | _ => none

/-- Decoding inverts encoding on each sextet. -/
theorem b64DecChar_b64EncChar : ∀ n < 64, b64DecChar (b64EncChar n) = some n := by
  decide

/-- An alphabet character is never the padding character. -/
theorem b64EncChar_ne_pad : ∀ n < 64, b64EncChar n ≠ '=' := by
  decide

/-- Base64 decoding inverts base64 encoding on every byte list. -/
theorem base64Decode_base64Encode (v : List Nat) (hv : ∀ b ∈ v, b < 256) :
    base64Decode (base64Encode v) = some v := by
  induction v using base64Encode.induct with
  | case1 => rfl
  | case2 b1 =>
      have h1 : b1 < 256 := hv b1 (by simp)
      rw [base64Encode, base64Decode,
        b64DecChar_b64EncChar (b1 / 4) (by omega),
        b64DecChar_b64EncChar (b1 % 4 * 16) (by omega)]
      simp
      omega
  | case3 b1 b2 =>
      have h1 : b1 < 256 := hv b1 (by simp)
      have h2 : b2 < 256 := hv b2 (by simp)
      rw [base64Encode, base64Decode,
        b64DecChar_b64EncChar (b1 / 4) (by omega),
        b64DecChar_b64EncChar (b1 % 4 * 16 + b2 / 16) (by omega),
        b64DecChar_b64EncChar (b2 % 16 * 4) (by omega)]
      simp [b64EncChar_ne_pad (b2 % 16 * 4) (by omega)]
      omega
  | case4 b1 b2 b3 rest ih =>
      have h1 : b1 < 256 := hv b1 (by simp)
      have h2 : b2 < 256 := hv b2 (by simp)
      have h3 : b3 < 256 := hv b3 (by simp)
      have hrest : ∀ b ∈ rest, b < 256 := fun b hb => hv b (by simp [hb])
      rw [base64Encode, base64Decode,
        b64DecChar_b64EncChar (b1 / 4) (by omega),
        b64DecChar_b64EncChar (b1 % 4 * 16 + b2 / 16) (by omega),
        b64DecChar_b64EncChar (b2 % 16 * 4 + b3 / 64) (by omega),
        b64DecChar_b64EncChar (b3 % 64) (by omega), ih hrest]
      simp [b64EncChar_ne_pad (b2 % 16 * 4 + b3 / 64) (by omega),
        b64EncChar_ne_pad (b3 % 64) (by omega)]
      omega

/-! ### `encoding/json` restricted to byte slices

`json.Marshal` on a `[]byte` produces a JSON string (a double-quoted base64
text); it has no failure path for byte slices.  `json.Unmarshal` into a
`*[]byte` expects a JSON string and base64-decodes its contents; any other
input is rejected with an error, modelled as `none`.  (The model covers the
image of `Marshal` on byte slices together with the rejection of malformed
input; JSON escape sequences and the `null` literal, which `Marshal` never
emits for a non-nil byte slice, are outside its scope.) -/

/-- `json.Marshal` of a byte slice: the base64 text between double quotes. -/
def jsonMarshalBytes (v : List Nat) : List Char :=
  '"' :: (base64Encode v ++ ['"'])

/-- `json.Unmarshal` of a stored value into a byte slice: strip the double
quotes and base64-decode the contents; reject anything else. -/
def jsonUnmarshalBytes : List Char → Option (List Nat)
  | '"' :: rest =>
      if rest.getLast? = some '"' then base64Decode rest.dropLast else none
  | _ => none

/-- The deserialization used by `Get` and `Pop` inverts the serialization
used by `Set` on every byte list. -/
theorem jsonUnmarshalBytes_jsonMarshalBytes (v : List Nat)
    (hv : ∀ b ∈ v, b < 256) :
    jsonUnmarshalBytes (jsonMarshalBytes v) = some v := by
  rw [jsonMarshalBytes, jsonUnmarshalBytes]
  rw [List.getLast?_concat, List.dropLast_concat]
  simp [base64Decode_base64Encode v hv]

/-! ### The Redis glob matcher

`RemoveByPrefix` asks the server for `KEYS prefix+"*"`.  The server matches
each key against that pattern with the glob matcher `stringmatchlen` from
redis `util.c`: `*` matches any sequence, `?` any single character, `[...]`
a character class (with `^` negation, `a-b` ranges and `\`-escapes), `\x`
the literal character `x`, and any other character itself.  `globMatch`
below follows that matcher (for the bare pattern `*` it also matches the
empty key, as the `KEYS` command's all-keys shortcut does). -/

/-- One scan of a `[...]` character class body against the character `c`:
accumulates whether any class element matched and returns the rest of the
pattern after the closing `]`.  An escaped character matches literally, a
`a-b` triple matches the enclosed range, and an unterminated class consumes
the whole pattern, as in `util.c`. -/
def scanClass (c : Char) : List Char → Bool → Bool × List Char
  | [], m => (m, [])
  | [a], m => if a = ']' then (m, []) else (m || (a == c), [])
  | [a, b], m =>
      if a = '\\' then (m || (b == c), [])
      else if a = ']' then (m, [b])
      else scanClass c [b] (m || (a == c))
  | a :: b :: d :: ps, m =>
      if a = '\\' then scanClass c (d :: ps) (m || (b == c))
      else if a = ']' then (m, b :: d :: ps)
      else if b = '-' then
        scanClass c ps (m || decide (min a.toNat d.toNat ≤ c.toNat ∧
          c.toNat ≤ max a.toNat d.toNat))
      else scanClass c (b :: d :: ps) (m || (a == c))

/-- A class scan never lengthens the remaining pattern. -/
theorem scanClass_length (c : Char) (l : List Char) (m : Bool) :
    (scanClass c l m).2.length ≤ l.length := by
  induction l, m using scanClass.induct c <;>
    rw [scanClass] <;> split_ifs <;> simp_all <;> omega

/-- The leading `^` negation marker of a character class, if present. -/
def stripNeg : List Char → Bool × List Char
  | '^' :: ps => (true, ps)
  | ps => (false, ps)

theorem stripNeg_length (l : List Char) : (stripNeg l).2.length ≤ l.length := by
  rw [stripNeg.eq_def]
  split <;> simp

/-- The redis glob matcher applied by `KEYS`: `globMatch pat s` decides
whether the key `s` matches the pattern `pat`. -/
def globMatch : List Char → List Char → Bool
  | [], [] => true
  | [], _ :: _ => false
  | '*' :: pat, [] => globMatch pat []
  | '*' :: pat, c :: s => globMatch pat (c :: s) || globMatch ('*' :: pat) s
  | '?' :: _, [] => false
  | '?' :: pat, _ :: s => globMatch pat s
  | '[' :: _, [] => false
  | '[' :: pat, c :: s =>
      let np := stripNeg pat
      let ms := scanClass c np.2 false
      (if np.1 then !ms.1 else ms.1) && globMatch ms.2 s
  | '\\' :: p :: pat, c :: s => (p == c) && globMatch pat s
  | '\\' :: _ :: _, [] => false
  | p :: pat, c :: s => (p == c) && globMatch pat s
  | _ :: _, [] => false
  termination_by pat s => (pat.length, s.length)
  decreasing_by
    all_goals simp_wf
    all_goals
      first
      | (apply Prod.Lex.right; omega)
      | (apply Prod.Lex.left; omega)
      | (apply Prod.Lex.left
         have h1 := scanClass_length c (stripNeg pat).2 false
         have h2 := stripNeg_length pat
         omega)

/-- A pattern text free of the four glob metacharacters. -/
def GlobLiteral (l : List Char) : Prop :=
  ∀ c ∈ l, c ≠ '*' ∧ c ≠ '?' ∧ c ≠ '[' ∧ c ≠ '\\'

instance (l : List Char) : Decidable (GlobLiteral l) := by
  unfold GlobLiteral; infer_instance

/-- The pattern `*` matches every key. -/
theorem globMatch_star (s : List Char) : globMatch ['*'] s = true := by
  induction s with
  | nil => simp [globMatch]
  | cons c s ih => rw [globMatch, ih]; simp

/-- For a metacharacter-free text `l`, the pattern `l ++ "*"` matches exactly
the keys that start with the literal text `l`. -/
theorem globMatch_literal_star (l : List Char) (hl : GlobLiteral l) :
    ∀ s : List Char, globMatch (l ++ ['*']) s = l.isPrefixOf s := by
  induction l with
  | nil => intro s; simp [globMatch_star, List.isPrefixOf]
  | cons a l ih =>
      have ha := hl a (by simp)
      have hl' : GlobLiteral l := fun c hc => hl c (by simp [hc])
      intro s
      cases s with
      | nil =>
          rw [globMatch.eq_def]
          split <;> simp_all [List.isPrefixOf]
      | cons c s' =>
          rw [globMatch.eq_def]
          split <;> simp_all [List.isPrefixOf, ih hl' s']

/-! ### The Redis store and the go-redis client layer

The store state is an association list from keys to entries; an entry holds
the stored string and its expiration (`none` for "no expiration").  Time
passage is not modelled: every claim is about immediate successions of
calls, so an entry's expiration is only recorded.

The client layer reproduces how the go-redis v9 client surfaces each
command's outcome: a reply is a value, the `redis.Nil` sentinel (key does
not exist), or a transport error.  A call fails with an error when the
context carried by the cache was cancelled, or when an injected transport
fault `fault` is present (modelling a network or protocol failure). -/

/-- A stored entry: the value text and the expiration set for it
(`none` when the entry has no expiration). -/
structure REntry where
  value : String
  expiry : Option Int
  deriving DecidableEq

/-- The remote store: an association list from keys to entries. -/
structure RedisState where
  entries : List (String × REntry)
  deriving DecidableEq

/-- The entry stored at `k`, if any (first match in the association list). -/
def redisLookup (st : RedisState) (k : String) : Option REntry :=
  (st.entries.find? (fun e => e.1 == k)).map (fun e => e.2)

/-- go-redis `KeepTTL`: the sentinel `-1` passed as an expiration to keep
the entry's previous one. -/
def keepTTL : Int := -1

/-- The SET command with the expiration handling of go-redis v9 `Set`:
a positive duration sets an expiration, `KeepTTL` keeps the previous one,
anything else stores without expiration.  The entry at `k` is overwritten. -/
def redisSet (st : RedisState) (k v : String) (ttl : Int) : RedisState :=
  let expiry : Option Int :=
    if ttl > 0 then some ttl
    else if ttl = keepTTL then (redisLookup st k).bind (fun e => e.expiry)
    else none
  ⟨(k, ⟨v, expiry⟩) :: st.entries.filter (fun e => !(e.1 == k))⟩

/-- The GET command: the stored string, or `none` (`redis.Nil`). -/
def redisGet (st : RedisState) (k : String) : Option String :=
  (redisLookup st k).map (fun e => e.value)

/-- The GETDEL command: the stored string and the state with `k` removed. -/
def redisGetDel (st : RedisState) (k : String) : Option String × RedisState :=
  (redisGet st k, ⟨st.entries.filter (fun e => !(e.1 == k))⟩)

/-- The DEL command on a key list: the number of entries removed and the
state without them. -/
def redisDel (st : RedisState) (ks : List String) : Nat × RedisState :=
  let keep := st.entries.filter (fun e => !(ks.contains e.1))
  (st.entries.length - keep.length, ⟨keep⟩)

/-- The KEYS command: every stored key matching the glob pattern. -/
def redisKeys (st : RedisState) (pat : String) : List String :=
  (st.entries.map (fun e => e.1)).filter (fun k => globMatch pat.data k.data)

/-- The TTL command as go-redis v9 `TTL` surfaces it: `-2` when the key does
not exist, `-1` when it exists without expiration, otherwise the recorded
expiration; the reply is an integer, never `redis.Nil`. -/
def redisTTL (st : RedisState) (k : String) : Int :=
  match redisLookup st k with
  | none => -2
  | some e =>
      match e.expiry with
      | none => -1
      | some t => t

/-- The cancellation context handed to `NewCache` (`context.Context`);
only its cancelled/live status is observable to this component. -/
structure Ctx where
  cancelled : Bool
  deriving DecidableEq

/-- `context.Background()`: a context that is never cancelled. -/
def contextBackground : Ctx := ⟨false⟩

/-- A go-redis reply: a value, the `redis.Nil` sentinel, or an error. -/
inductive Reply (α : Type) where
  | ok (val : α)
  | nil
  | err (msg : String)
  deriving DecidableEq

/-- The error a client call reports before reaching the command's own
outcome: cancellation of the supplied context, or an injected transport
fault. -/
def callFault (ctx : Ctx) (fault : Option String) : Option String :=
  if ctx.cancelled then some "context canceled" else fault

/-- `client.Set(ctx, key, value, ttl)`: reply and resulting store state. -/
def clientSet (ctx : Ctx) (fault : Option String) (st : RedisState)
    (k v : String) (ttl : Int) : Reply Unit × RedisState :=
  match callFault ctx fault with
  | some e => (.err e, st)
  | none => (.ok (), redisSet st k v ttl)

/-- `client.Get(ctx, key).Result()`: `redis.Nil` when the key is absent. -/
def clientGet (ctx : Ctx) (fault : Option String) (st : RedisState)
    (k : String) : Reply String :=
  match callFault ctx fault with
  | some e => .err e
  | none =>
      match redisGet st k with
      | none => .nil
      | some v => .ok v

/-- `client.GetDel(ctx, key).Result()`: like GET but also removes the key. -/
def clientGetDel (ctx : Ctx) (fault : Option String) (st : RedisState)
    (k : String) : Reply String × RedisState :=
  match callFault ctx fault with
  | some e => (.err e, st)
  | none =>
      match redisGetDel st k with
      | (none, st') => (.nil, st')
      | (some v, st') => (.ok v, st')

/-- `client.Del(ctx, keys...).Result()`: delete count and new state. -/
def clientDel (ctx : Ctx) (fault : Option String) (st : RedisState)
    (ks : List String) : Reply Nat × RedisState :=
  match callFault ctx fault with
  | some e => (.err e, st)
  | none =>
      match redisDel st ks with
      | (n, st') => (.ok n, st')

/-- `client.Keys(ctx, pattern).Result()`. -/
def clientKeys (ctx : Ctx) (fault : Option String) (st : RedisState)
    (pat : String) : Reply (List String) :=
  match callFault ctx fault with
  | some e => .err e
  | none => .ok (redisKeys st pat)

/-- `client.TTL(ctx, key).Result()`: the duration reply of go-redis, which
is never the `redis.Nil` sentinel (a missing key yields the value `-2`). -/
def clientTTL (ctx : Ctx) (fault : Option String) (st : RedisState)
    (k : String) : Reply Int :=
  match callFault ctx fault with
  | some e => .err e
  | none => .ok (redisTTL st k)

/-! ### The `TTLCache` facade (`redis.go`)

Each method takes the store state and the transport fault of each client
call it performs as explicit arguments; the Go receiver's fields reduce to
the construction-time context.  Return shapes follow the Go signatures,
with Go's `[]byte` result modelled as `Option (List Nat)` (`none` for the
`nil` slice returned on every failure path). -/

/-- The `TTLCache` receiver: it owns only the construction-time context
(`NewCache` stores the client handle and `ctx`). -/
structure TTLCache where
  ctx : Ctx
  deriving DecidableEq

/-- `json.Marshal` as `Set` calls it: a value-and-error pair.  For a
`[]byte` argument the encoder quotes the base64 text of the bytes and has
no failure path, so the error side never occurs. -/
def jsonMarshal (v : List Nat) : Except String (List Char) :=
  .ok (jsonMarshalBytes v)

/-- `Set`: serialize the value with `json.Marshal`, return early if the
serialization errored (logging it), otherwise issue one SET-with-expiration;
a store error is logged and swallowed. -/
def TTLCache.Set (c : TTLCache) (st : RedisState) (fault : Option String)
    (key : String) (value : List Nat) (ttl : Int) : RedisState :=
  match jsonMarshal value with
  | .error _ => st
  | .ok serializedValue =>
      let r := clientSet c.ctx fault st key (String.mk serializedValue) ttl
      r.2

/-- `Get`: one GET; `redis.Nil` and transport errors collapse to
`(nil, false)`, a deserialization failure also collapses to
`(nil, false)`, success returns the decoded value and `true`. -/
def TTLCache.Get (c : TTLCache) (st : RedisState) (fault : Option String)
    (key : String) : Option (List Nat) × Bool :=
  match clientGet c.ctx fault st key with
  | .nil => (none, false)
  | .err _ => (none, false)
  | .ok serializedValue =>
      match jsonUnmarshalBytes serializedValue.data with
      | none => (none, false)
      | some value => (some value, true)

/-- `Pop`: same contract as `Get` over the atomic GETDEL command; the
returned state is the store after the call. -/
def TTLCache.Pop (c : TTLCache) (st : RedisState) (fault : Option String)
    (key : String) : (Option (List Nat) × Bool) × RedisState :=
  let r := clientGetDel c.ctx fault st key
  (match r.1 with
    | .nil => (none, false)
    | .err _ => (none, false)
    | .ok serializedValue =>
        match jsonUnmarshalBytes serializedValue.data with
        | none => (none, false)
        | some value => (some value, true),
   r.2)

/-- `Remove`: one DEL for exactly one key; errors are logged, not surfaced. -/
def TTLCache.Remove (c : TTLCache) (st : RedisState) (fault : Option String)
    (key : String) : RedisState :=
  (clientDel c.ctx fault st [key]).2

/-- `RemoveByPrefix`: enumerate `KEYS prefix+"*"` and bulk-DEL the result
when non-empty.  Both calls use `context.Background()`, not the cache's
context; each call's failure is logged at warning level and ignored. -/
def TTLCache.RemoveByPrefix (c : TTLCache) (st : RedisState)
    (faultKeys faultDel : Option String) (pre : String) : RedisState :=
  match clientKeys contextBackground faultKeys st (pre ++ "*") with
  | .err _ => st
  | .nil => st
  | .ok keys =>
      if keys.length > 0 then (clientDel contextBackground faultDel st keys).2
      else st

/-- `GetTTL`: one TTL command; the `err == redis.Nil` branch returns
`(0, false)` (never reached: the client's TTL reply is not `redis.Nil`),
other errors return `(0, false)`, success returns the duration and `true`. -/
def TTLCache.GetTTL (c : TTLCache) (st : RedisState) (fault : Option String)
    (key : String) : Int × Bool :=
  match clientTTL c.ctx fault st key with
  | .nil => (0, false)
  | .err _ => (0, false)
  | .ok ttl => (ttl, true)

/-! ### Helper lemmas about the store -/

/-- Filtering out a key makes lookups of that key fail. -/
theorem find?_key_filter_ne (l : List (String × REntry)) (k : String) :
    (l.filter (fun e => !(e.1 == k))).find? (fun e => e.1 == k) = none := by
  rw [List.find?_eq_none]
  intro x hx
  have := (List.mem_filter.mp hx).2
  simpa using this

/-! ### The claims -/

/-- C1: for every key `K`, byte value `V` and ttl `T > 0`, `Set(K, V, T)`
followed immediately by `Get(K)` (no intervening operation, no fault, live
context, no expiration elapsing) returns `(V, true)`. -/
theorem Set_then_Get (c : TTLCache) (st : RedisState) (k : String)
    (v : List Nat) (t : Int) (hctx : c.ctx.cancelled = false) (ht : 0 < t)
    (hv : ∀ b ∈ v, b < 256) :
    TTLCache.Get c (TTLCache.Set c st none k v t) none k = (some v, true) := by
  simp only [TTLCache.Set, jsonMarshal, TTLCache.Get, clientSet, clientGet, callFault, hctx,
    Bool.false_eq_true, if_false, redisSet, redisGet, redisLookup,
    List.find?_cons_of_pos, beq_self_eq_true, Option.map_some]
  simp [jsonUnmarshalBytes_jsonMarshalBytes v hv]

/-- C1 witness: a concrete run of the round trip. -/
theorem Set_then_Get_witness :
    (⟨⟨false⟩⟩ : TTLCache).ctx.cancelled = false ∧ (0 : Int) < 5 ∧
      (∀ b ∈ [0, 255, 10], b < 256) ∧
      TTLCache.Get ⟨⟨false⟩⟩ (TTLCache.Set ⟨⟨false⟩⟩ ⟨[]⟩ none "k" [0, 255, 10] 5)
        none "k" = (some [0, 255, 10], true) :=
  ⟨rfl, by decide, by decide,
    Set_then_Get ⟨⟨false⟩⟩ ⟨[]⟩ "k" [0, 255, 10] 5 rfl (by decide) (by decide)⟩

/-- C2: after `Set(K, V, T)` (live context, no faults), `Pop(K)` returns
`(V, true)` and removes the entry, so a subsequent `Get(K)` reports the key
absent: the entry is consumed exactly once. -/
theorem Set_then_Pop_consumes (c : TTLCache) (st : RedisState) (k : String)
    (v : List Nat) (t : Int) (hctx : c.ctx.cancelled = false) (ht : 0 < t)
    (hv : ∀ b ∈ v, b < 256) :
    (TTLCache.Pop c (TTLCache.Set c st none k v t) none k).1 = (some v, true)
    ∧ TTLCache.Get c (TTLCache.Pop c (TTLCache.Set c st none k v t) none k).2
        none k = (none, false) := by
  constructor
  · simp only [TTLCache.Set, jsonMarshal, TTLCache.Pop, clientSet, clientGetDel, callFault,
      hctx, Bool.false_eq_true, if_false, redisSet, redisGetDel, redisGet,
      redisLookup, List.find?_cons_of_pos, beq_self_eq_true, Option.map_some]
    simp [jsonUnmarshalBytes_jsonMarshalBytes v hv]
  · simp only [TTLCache.Set, jsonMarshal, TTLCache.Pop, TTLCache.Get, clientSet,
      clientGetDel, clientGet, callFault, hctx, Bool.false_eq_true, if_false,
      redisSet, redisGetDel, redisGet, redisLookup, List.find?_cons_of_pos,
      beq_self_eq_true, Option.map_some]
    simp [jsonUnmarshalBytes_jsonMarshalBytes v hv, find?_key_filter_ne]
    rw [List.find?_eq_none.mpr (fun x _ => by simp)]
    rfl

/-- C2 witness: a concrete consume-once run. -/
theorem Set_then_Pop_consumes_witness :
    (TTLCache.Pop ⟨⟨false⟩⟩ (TTLCache.Set ⟨⟨false⟩⟩ ⟨[]⟩ none "k" [7] 5)
        none "k").1 = (some [7], true)
    ∧ TTLCache.Get ⟨⟨false⟩⟩
        (TTLCache.Pop ⟨⟨false⟩⟩ (TTLCache.Set ⟨⟨false⟩⟩ ⟨[]⟩ none "k" [7] 5)
          none "k").2 none "k" = (none, false) :=
  Set_then_Pop_consumes ⟨⟨false⟩⟩ ⟨[]⟩ "k" [7] 5 rfl (by decide) (by decide)

/-- C3 (the code contradicts this claim): on an absent key the go-redis TTL
reply is the integer `-2` with a nil error — never the `redis.Nil`
sentinel — so `GetTTL`'s "key does not exist" branch is dead and the facade
returns `(-2, true)` where the claim (and the branch's own comment) expect
`(0, false)`. -/
theorem GetTTL_missing_key_bug :
    TTLCache.GetTTL ⟨⟨false⟩⟩ ⟨[]⟩ none "missing" = (-2, true)
    ∧ TTLCache.GetTTL ⟨⟨false⟩⟩ ⟨[]⟩ none "missing" ≠ (0, false) := by
  constructor <;> decide

/-- C4 counterexample: `?` is a glob metacharacter in the `KEYS` pattern,
so with the single entry at key `"ab"`, `RemoveByPrefix("a?")` deletes that
entry even though `"ab"` does not start with the literal string `"a?"` —
the claim's "leaves every other entry present" fails. -/
theorem RemoveByPrefix_not_literal :
    redisGet (TTLCache.RemoveByPrefix ⟨⟨false⟩⟩
        (TTLCache.Set ⟨⟨false⟩⟩ ⟨[]⟩ none "ab" [1] 5) none none "a?") "ab" = none
    ∧ "a?".data.isPrefixOf "ab".data = false
    ∧ redisGet (TTLCache.Set ⟨⟨false⟩⟩ ⟨[]⟩ none "ab" [1] 5) "ab" ≠ none := by
  refine ⟨?_, by decide, by decide⟩
  have hg : globMatch ['a', '?', '*'] "ab".data = true := by
    simp [globMatch]
  simp [TTLCache.RemoveByPrefix, TTLCache.Set, jsonMarshal, clientKeys,
    clientSet, clientDel, callFault, contextBackground, redisKeys, redisSet,
    redisDel, redisGet, redisLookup, hg]

/-- C4 (amended): for every prefix `P` free of the glob metacharacters
`*`, `?`, `[` and `\` — such as `"user:"` — `RemoveByPrefix(P)` with live
calls deletes exactly the entries whose key starts with the literal string
`P` and leaves every other entry present. -/
theorem RemoveByPrefix_literal (c : TTLCache) (st : RedisState) (p : String)
    (hp : GlobLiteral p.data) :
    (TTLCache.RemoveByPrefix c st none none p).entries
      = st.entries.filter (fun e => !(p.data.isPrefixOf e.1.data)) := by
  have hpat : (p ++ "*").data = p.data ++ ['*'] := by
    simp [String.data_append]
  have hkeys : redisKeys st (p ++ "*")
      = (st.entries.map (fun e => e.1)).filter
          (fun k => p.data.isPrefixOf k.data) := by
    rw [redisKeys]
    apply List.filter_congr
    intro k _
    rw [hpat, globMatch_literal_star p.data hp k.data]
  have hcb : ∀ f : Option String, callFault contextBackground f = f :=
    fun f => rfl
  simp only [TTLCache.RemoveByPrefix, clientKeys, clientDel, hcb,
    redisDel, hkeys]
  split_ifs with hlen
  · apply List.filter_congr
    intro e he
    have hmem : e.1 ∈ st.entries.map (fun x => x.1) := List.mem_map_of_mem _ he
    by_cases hpre : p.data.isPrefixOf e.1.data = true
    · have hin : e.1 ∈ (st.entries.map (fun e => e.1)).filter
          (fun k => p.data.isPrefixOf k.data) :=
        List.mem_filter.mpr ⟨hmem, hpre⟩
      simp [hin, hpre]
    · have hout : e.1 ∉ (st.entries.map (fun e => e.1)).filter
          (fun k => p.data.isPrefixOf k.data) :=
        fun hmem2 => hpre (List.mem_filter.mp hmem2).2
      simp [hout, hpre]
  · symm
    rw [List.filter_eq_self]
    intro e he
    have hmem : e.1 ∈ st.entries.map (fun x => x.1) := List.mem_map_of_mem _ he
    have hnil : (st.entries.map (fun e => e.1)).filter
        (fun k => p.data.isPrefixOf k.data) = [] := by
      rcases h : ((st.entries.map (fun e => e.1)).filter
        (fun k => p.data.isPrefixOf k.data)) with _ | ⟨a, l⟩
      · exact h
      · exact absurd (h ▸ (by simp)) hlen
    by_contra hcon
    have hpre : p.data.isPrefixOf e.1.data = true := by
      simpa using hcon
    have : e.1 ∈ (st.entries.map (fun e => e.1)).filter
        (fun k => p.data.isPrefixOf k.data) :=
      List.mem_filter.mpr ⟨hmem, hpre⟩
    simp [hnil] at this

/-- C4 (amended) witness: the spec's own example — after setting `user:1`,
`user:2` and `admin:1`, `RemoveByPrefix("user:")` leaves exactly the
entries whose key does not start with `user:`. -/
theorem RemoveByPrefix_literal_witness :
    GlobLiteral "user:".data
    ∧ (TTLCache.RemoveByPrefix ⟨⟨false⟩⟩
        (TTLCache.Set ⟨⟨false⟩⟩ (TTLCache.Set ⟨⟨false⟩⟩ (TTLCache.Set ⟨⟨false⟩⟩
            ⟨[]⟩ none "user:1" [1] 5) none "user:2" [2] 5) none "admin:1" [3] 5)
          none none "user:").entries
      = (TTLCache.Set ⟨⟨false⟩⟩ (TTLCache.Set ⟨⟨false⟩⟩ (TTLCache.Set ⟨⟨false⟩⟩
            ⟨[]⟩ none "user:1" [1] 5) none "user:2" [2] 5) none "admin:1" [3] 5
          ).entries.filter (fun e => !("user:".data.isPrefixOf e.1.data)) :=
  ⟨by decide, RemoveByPrefix_literal ⟨⟨false⟩⟩ _ "user:" (by decide)⟩

/-- C5: for every byte sequence `V` (including the empty one), decoding the
transport encoding of `V` yields `V` again — `decode(encode(V)) = V`, where
the encode is the serialization `Set` applies and the decode is the
deserialization `Get` and `Pop` apply. -/
theorem decode_encode_identity (v : List Nat) (hv : ∀ b ∈ v, b < 256) :
    jsonUnmarshalBytes (jsonMarshalBytes v) = some v :=
  jsonUnmarshalBytes_jsonMarshalBytes v hv

/-- C5 witness: concrete round trips, including the empty sequence. -/
theorem decode_encode_identity_witness :
    (∀ b ∈ ([] : List Nat), b < 256)
    ∧ jsonUnmarshalBytes (jsonMarshalBytes []) = some []
    ∧ jsonUnmarshalBytes (jsonMarshalBytes [0, 255, 7, 100]) =
        some [0, 255, 7, 100] :=
  ⟨by decide, decode_encode_identity [] (by decide),
    decode_encode_identity [0, 255, 7, 100] (by decide)⟩

/-- C6: `Get` and `Pop` never return a partially-deserialized value: for
every store state, fault and key, either the client reply is a value whose
full decode succeeds and the result is `(value, true)`, or the result is
`(nil, false)` — even when the key physically exists at the store. -/
theorem Get_Pop_no_partial (c : TTLCache) (st : RedisState)
    (fault : Option String) (k : String) :
    (TTLCache.Get c st fault k = (none, false)
      ∨ ∃ s v, clientGet c.ctx fault st k = .ok s
          ∧ jsonUnmarshalBytes s.data = some v
          ∧ TTLCache.Get c st fault k = (some v, true))
    ∧ ((TTLCache.Pop c st fault k).1 = (none, false)
      ∨ ∃ s v, (clientGetDel c.ctx fault st k).1 = .ok s
          ∧ jsonUnmarshalBytes s.data = some v
          ∧ (TTLCache.Pop c st fault k).1 = (some v, true)) := by
  constructor
  · cases hr : clientGet c.ctx fault st k with
    | nil => left; simp [TTLCache.Get, hr]
    | err e => left; simp [TTLCache.Get, hr]
    | ok s =>
        cases hu : jsonUnmarshalBytes s.data with
        | none => left; simp [TTLCache.Get, hr, hu]
        | some v =>
            right
            exact ⟨s, v, rfl, hu, by simp [TTLCache.Get, hr, hu]⟩
  · cases hr : (clientGetDel c.ctx fault st k).1 with
    | nil => left; simp [TTLCache.Pop, hr]
    | err e => left; simp [TTLCache.Pop, hr]
    | ok s =>
        cases hu : jsonUnmarshalBytes s.data with
        | none => left; simp [TTLCache.Pop, hr, hu]
        | some v =>
            right
            exact ⟨s, v, rfl, hu, by simp [TTLCache.Pop, hr, hu]⟩

/-- C7: no public operation propagates an error object to its caller — each
returns only its plain result shape with the boolean as the sole failure
signal; in particular, under a transport error every operation reports
not-found (reads) or leaves the store unchanged (writes). -/
theorem errors_never_propagate (c : TTLCache) (st : RedisState) (e : String)
    (k p : String) (v : List Nat) (t : Int) (fd : Option String) :
    TTLCache.Set c st (some e) k v t = st
    ∧ TTLCache.Get c st (some e) k = (none, false)
    ∧ TTLCache.Pop c st (some e) k = ((none, false), st)
    ∧ TTLCache.Remove c st (some e) k = st
    ∧ TTLCache.RemoveByPrefix c st (some e) fd p = st
    ∧ TTLCache.GetTTL c st (some e) k = (0, false) := by
  have hcf : ∃ e2, callFault c.ctx (some e) = some e2 := by
    unfold callFault
    split_ifs <;> exact ⟨_, rfl⟩
  obtain ⟨e2, hcf⟩ := hcf
  have hcb : callFault contextBackground (some e) = some e := rfl
  simp [TTLCache.Set, jsonMarshal, TTLCache.Get, TTLCache.Pop,
    TTLCache.Remove, TTLCache.RemoveByPrefix, TTLCache.GetTTL, clientSet,
    clientGet, clientGetDel, clientDel, clientKeys, clientTTL, hcf, hcb]

/-- C8: `Remove(K)` twice has the same effect as once, and `Remove(K)` on
an absent key leaves the store unchanged (and reports no error). -/
theorem Remove_idempotent (c : TTLCache) (st : RedisState) (k : String) :
    TTLCache.Remove c (TTLCache.Remove c st none k) none k
      = TTLCache.Remove c st none k
    ∧ (redisGet st k = none → TTLCache.Remove c st none k = st) := by
  obtain ⟨entries⟩ := st
  cases hc : c.ctx.cancelled with
  | true => simp [TTLCache.Remove, clientDel, callFault, hc]
  | false =>
      simp only [TTLCache.Remove, clientDel, callFault, hc,
        Bool.false_eq_true, if_false, redisDel]
      constructor
      · congr 1
        simp [List.filter_filter]
      · intro hget
        have hnone : entries.find? (fun e => e.1 == k) = none := by
          simpa [redisGet, redisLookup] using hget
        have hall := List.find?_eq_none.mp hnone
        congr 1
        rw [List.filter_eq_self]
        intro e he
        have hne := hall e he
        simp only [List.contains_cons, List.contains_nil, Bool.or_false]
        simpa using hne

/-- C8 witness: removing an absent key twice at a store with one unrelated
entry. -/
theorem Remove_idempotent_witness :
    TTLCache.Remove ⟨⟨false⟩⟩
        (TTLCache.Remove ⟨⟨false⟩⟩ ⟨[("a", ⟨"v", none⟩)]⟩ none "b") none "b"
      = TTLCache.Remove ⟨⟨false⟩⟩ ⟨[("a", ⟨"v", none⟩)]⟩ none "b"
    ∧ TTLCache.Remove ⟨⟨false⟩⟩ ⟨[("a", ⟨"v", none⟩)]⟩ none "b"
      = ⟨[("a", ⟨"v", none⟩)]⟩ :=
  ⟨(Remove_idempotent ⟨⟨false⟩⟩ ⟨[("a", ⟨"v", none⟩)]⟩ "b").1,
    (Remove_idempotent ⟨⟨false⟩⟩ ⟨[("a", ⟨"v", none⟩)]⟩ "b").2 (by decide)⟩

/-- C9: `RemoveByPrefix` does not use the construction-time context — two
caches over the same store built with different contexts (for example a
cancelled and a live one) make the same store calls with the same result. -/
theorem RemoveByPrefix_ignores_ctx (ctx1 ctx2 : Ctx) (st : RedisState)
    (fk fd : Option String) (p : String) :
    TTLCache.RemoveByPrefix ⟨ctx1⟩ st fk fd p
      = TTLCache.RemoveByPrefix ⟨ctx2⟩ st fk fd p := rfl

/-- C10: `Set`'s serialization-error branch is unreachable — encoding a
byte slice always succeeds — so `Set` always proceeds to issue exactly one
SET-with-expiration command to the store. -/
theorem Set_always_reaches_store (c : TTLCache) (st : RedisState)
    (k : String) (v : List Nat) (t : Int) (fault : Option String) :
    jsonMarshal v = .ok (jsonMarshalBytes v)
    ∧ TTLCache.Set c st fault k v t
      = (clientSet c.ctx fault st k (String.mk (jsonMarshalBytes v)) t).2 :=
  ⟨rfl, rfl⟩

end RedisCache
